import Mathlib

/-!
Shallow embedding of the Go editor-integration layer (goSuggest.ts,
goImport.ts, the outline provider and the rename provider) used to verify
the frozen claims about this repository.

Buffers, lines and tool outputs are modelled as `String` (sequences of
characters); JavaScript string primitives (`split`, `substr`, `indexOf`,
`lastIndexOf`, `startsWith`, `endsWith`) are modelled by executable helper
functions over `String.data`, and JS string indices are modelled as
character indices.  The node `path` module is modelled for POSIX
slash-separated paths without trailing separators, which is the shape of
every path this code manipulates.
-/

/-- Character class of the regex `\w` (`[A-Za-z0-9_]`). -/
def isWordChar (c : Char) : Bool :=
  c.isAlpha || c.isDigit || c == '_'

/-- Character class of the regex `\s`, restricted to its ASCII members. -/
def isSpaceChar (c : Char) : Bool :=
  c == ' ' || c == '\t' || c == '\n' || c == '\r' || c == '\x0b' || c == '\x0c'

/-- JS `s.substring(0, n)` / `s.substr(0, n)` (clamped prefix). -/
def strTake (s : String) (n : Nat) : String :=
  String.mk (s.data.take n)

/-- JS `s.substr(n)` / `s.substring(n)` (clamped suffix). -/
def strDrop (s : String) (n : Nat) : String :=
  String.mk (s.data.drop n)

/-- JS `s.startsWith(p)`. -/
def startsWithStr (s p : String) : Bool :=
  p.data.isPrefixOf s.data

/-- JS `s.endsWith(p)`. -/
def endsWithStr (s p : String) : Bool :=
  p.data.isSuffixOf s.data

/-- Accumulator loop behind `lastIndexOfChar`. -/
def lastIndexOfCharAux (c : Char) : List Char → Nat → Int → Int
  | [], _, acc => acc
  | x :: rest, i, acc => lastIndexOfCharAux c rest (i + 1) (if x == c then (i : Int) else acc)

/-- JS `s.lastIndexOf(c)` for a one-character needle: index of the last
occurrence, `-1` when absent. -/
def lastIndexOfChar (c : Char) (s : String) : Int :=
  lastIndexOfCharAux c s.data 0 (-1)

/-- JS `hay.indexOf(needle)` on character lists, returned as `some index`
of the first occurrence or `none` (JS `-1`). -/
def indexOfSub (needle : List Char) : List Char → Option Nat
  | [] => if needle.isEmpty then some 0 else none
  | c :: rest =>
    if needle.isPrefixOf (c :: rest) then some 0
    else (indexOfSub needle rest).map (· + 1)

/-- node `path.join(a, b)` for POSIX segments carrying no `.`/`..` parts
and no redundant separators (the only shapes joined by this code). -/
def pathJoin (a b : String) : String :=
  if a == "" then b else if b == "" then a else a ++ "/" ++ b

/-! ## Package-list output parsing (goImport.ts, lines 34-47) -/

/-- Prepend a character to the first segment of a split result (helper for
`splitNl`; a JS split result is never empty). -/
def consHead (c : Char) : List (List Char) → List (List Char)
  | [] => [[c]]
  | s :: ss => (c :: s) :: ss

/-- JS `s.split('\n')` on the character list: the segments between newline
characters; splitting the empty list yields one empty segment. -/
def splitNl : List Char → List (List Char)
  | [] => [[]]
  | c :: rest => if c = '\n' then [] :: splitNl rest else consHead c (splitNl rest)

/-- The trailing-empty-entry drop of goImport.ts lines 41-44:
`if (lines[lines.length - 1] === '') lines.pop()`. -/
def dropTrailingEmpty (ls : List (List Char)) : List (List Char) :=
  if ls.getLast? = some [] then ls.dropLast else ls

/-- The package-list line parser of goImport.ts lines 40-45: split the tool
stdout on newlines, then drop a single trailing empty entry. -/
def parseLines (s : String) : List String :=
  (dropTrailingEmpty (splitNl s.data)).map String.mk

theorem consHead_ne_nil (c : Char) (ls : List (List Char)) : consHead c ls ≠ [] := by
  cases ls <;> simp [consHead]

theorem splitNl_ne_nil (cs : List Char) : splitNl cs ≠ [] := by
  cases cs with
  | nil => simp [splitNl]
  | cons c rest =>
    by_cases hc : c = '\n'
    · simp [splitNl, hc]
    · simp only [splitNl, hc, if_false]
      exact consHead_ne_nil c (splitNl rest)

theorem splitNl_singleton (cs x : List Char) (h : splitNl cs = [x]) : x = cs := by
  induction cs generalizing x with
  | nil =>
    simp only [splitNl] at h
    injection h with h1 h2
    exact h1.symm
  | cons c rest ih =>
    by_cases hc : c = '\n'
    · rw [splitNl, if_pos hc] at h
      injection h with h1 h2
      exact absurd h2 (splitNl_ne_nil rest)
    · rw [splitNl, if_neg hc] at h
      cases hrest : splitNl rest with
      | nil => exact absurd hrest (splitNl_ne_nil rest)
      | cons s ss =>
        rw [hrest] at h
        simp only [consHead] at h
        injection h with h1 h2
        subst h2
        have hs : s = rest := ih s hrest
        rw [← h1, hs]

/-- The last entry of the split is empty exactly when the input is empty or
its last character is a newline. -/
theorem splitNl_getLast_iff (cs : List Char) :
    (splitNl cs).getLast? = some [] ↔ cs = [] ∨ cs.getLast? = some '\n' := by
  induction cs with
  | nil => simp [splitNl]
  | cons c rest ih =>
    by_cases hc : c = '\n'
    · subst hc
      have hsplit : splitNl ('\n' :: rest) = [] :: splitNl rest := by
        simp [splitNl]
      rw [hsplit]
      cases hrest : splitNl rest with
      | nil => exact absurd hrest (splitNl_ne_nil _)
      | cons s ss =>
        rw [List.getLast?_cons_cons, ← hrest, ih]
        cases rest with
        | nil => simp
        | cons r rs =>
          rw [List.getLast?_cons_cons]
          simp
    · have hsplit : splitNl (c :: rest) = consHead c (splitNl rest) := by
        simp [splitNl, hc]
      rw [hsplit]
      cases hrest : splitNl rest with
      | nil => exact absurd hrest (splitNl_ne_nil _)
      | cons s ss =>
        simp only [consHead]
        cases ss with
        | nil =>
          have hs : s = rest := splitNl_singleton _ _ hrest
          subst hs
          constructor
          · intro h
            simp at h
          · rintro (h | h)
            · simp at h
            · cases s with
              | nil =>
                simp at h
                exact absurd h hc
              | cons r rs =>
                rw [List.getLast?_cons_cons] at h
                have h2 : (splitNl (r :: rs)).getLast? = some [] := ih.mpr (Or.inr h)
                rw [hrest] at h2
                simp at h2
        | cons a as =>
          have e1 : ((c :: s) :: a :: as).getLast? = (s :: a :: as).getLast? := by
            rw [List.getLast?_cons_cons, List.getLast?_cons_cons]
          rw [e1, ← hrest, ih]
          cases rest with
          | nil => simp [splitNl] at hrest
          | cons r rs =>
            rw [List.getLast?_cons_cons]
            simp

/-- Modelled from the spec: the parse behaviour claim C7 describes — one
trailing empty entry removed when and only when the tool output ends with
a newline character. -/
def claimParseLines (s : String) : List String :=
  if s.data.getLast? = some '\n'
    then ((splitNl s.data).dropLast).map String.mk
    else (splitNl s.data).map String.mk

/-- C7 counterexample: on the empty output the parser still removes the
one (empty) entry produced by the split, although the output does not end
with a newline; the claimed behaviour would keep it. -/
theorem parseLines_empty_cex :
    parseLines "" = [] ∧ claimParseLines "" = [""] ∧ ([] : List String) ≠ [""] := by
  refine ⟨by decide, by decide, by decide⟩

/-- C7 (amended): the parser splits the stdout on newlines and removes
exactly one trailing empty entry when and only when the output ends with a
newline or is empty; interior or doubled empty entries are kept, and the
two example inputs parse as the claim states. -/
theorem parseLines_spec (s : String) :
    parseLines s =
      (if s.data = [] ∨ s.data.getLast? = some '\n'
        then (splitNl s.data).dropLast
        else splitNl s.data).map String.mk
    ∧ parseLines "a\nb\nc\n" = ["a", "b", "c"]
    ∧ parseLines "a\nb\nc" = ["a", "b", "c"]
    ∧ parseLines "a\n\nb" = ["a", "", "b"]
    ∧ parseLines "a\n\n" = ["a", ""] := by
  refine ⟨?_, by decide, by decide, by decide, by decide⟩
  unfold parseLines dropTrailingEmpty
  by_cases h : (splitNl s.data).getLast? = some []
  · rw [if_pos h, if_pos ((splitNl_getLast_iff s.data).mp h)]
  · rw [if_neg h, if_neg (fun hc => h ((splitNl_getLast_iff s.data).mpr hc))]

/-! ## Lexicographic string comparison (JS default `Array.sort()`) -/

/-- Lexicographic less-or-equal on character lists, comparing JS-style by
character code at the first differing position. -/
def lexLeb : List Char → List Char → Bool
  | [], _ => true
  | _ :: _, [] => false
  | a :: as, b :: bs => if a = b then lexLeb as bs else decide (a < b)

/-- The default JS string comparison used by `Array.prototype.sort()`:
lexicographic by character code. -/
def strLe (a b : String) : Prop :=
  lexLeb a.data b.data = true

instance : DecidableRel strLe :=
  fun a b => instDecidableEqBool (lexLeb a.data b.data) true

theorem lexLeb_total (a b : List Char) : lexLeb a b = true ∨ lexLeb b a = true := by
  induction a generalizing b with
  | nil => exact Or.inl rfl
  | cons x xs ih =>
    cases b with
    | nil => exact Or.inr rfl
    | cons y ys =>
      by_cases hxy : x = y
      · subst hxy
        rcases ih ys with h | h
        · exact Or.inl (by simp [lexLeb, h])
        · exact Or.inr (by simp [lexLeb, h])
      · rcases lt_or_gt_of_ne hxy with h | h
        · exact Or.inl (by simp [lexLeb, hxy, h])
        · exact Or.inr (by simp [lexLeb, Ne.symm hxy, h])

theorem lexLeb_trans :
    ∀ (a b c : List Char), lexLeb a b = true → lexLeb b c = true → lexLeb a c = true
  | [], _, _, _, _ => rfl
  | x :: xs, [], _, h1, _ => by simp [lexLeb] at h1
  | x :: xs, y :: ys, [], _, h2 => by simp [lexLeb] at h2
  | x :: xs, y :: ys, z :: zs, h1, h2 => by
    by_cases hxy : x = y
    · subst hxy
      rw [lexLeb, if_pos rfl] at h1
      by_cases hyz : x = z
      · subst hyz
        rw [lexLeb, if_pos rfl] at h2 ⊢
        exact lexLeb_trans xs ys zs h1 h2
      · rw [lexLeb, if_neg hyz] at h2 ⊢
        exact h2
    · rw [lexLeb, if_neg hxy] at h1
      have hlt1 : x < y := of_decide_eq_true h1
      by_cases hyz : y = z
      · subst hyz
        rw [lexLeb, if_neg hxy]
        exact h1
      · rw [lexLeb, if_neg hyz] at h2
        have hlt2 : y < z := of_decide_eq_true h2
        have hlt : x < z := lt_trans hlt1 hlt2
        rw [lexLeb, if_neg (ne_of_lt hlt)]
        exact decide_eq_true hlt

instance : IsTotal String strLe :=
  ⟨fun a b => lexLeb_total a.data b.data⟩

instance : IsTrans String strLe :=
  ⟨fun a b c => lexLeb_trans a.data b.data c.data⟩

/-! ## Package catalog (goImport.ts `listPackages`, lines 49-124) -/

/-- The `PackageInfo` entries produced by `listPackages`. -/
structure PackageInfo where
  name : String
  path : String
deriving DecidableEq

/-- goImport.ts line 92: `let magicVendorString = '/vendor/';`. -/
def magicVendorString : String := "/vendor/"

/-- goImport.ts lines 93-109: the per-path vendor rewrite performed inside
the `pkgs.forEach` body — the path is replaced by its part after the first
`/vendor/` occurrence only when that occurrence is at a positive index, the
relative part is nonempty and the current file's directory starts with the
root project obtained by joining the current workspace with the part before
`/vendor/`; otherwise the path is kept. -/
def processVendorPkg (currentWorkspace currentFileDirPath pkg : String) : String :=
  match indexOfSub magicVendorString.data pkg.data with
  | some vendorIndex =>
    if 0 < vendorIndex then
      let rootProjectForVendorPkg := pathJoin currentWorkspace (strTake pkg vendorIndex)
      let relativePathForVendorPkg := strDrop pkg (vendorIndex + magicVendorString.length)
      if relativePathForVendorPkg ≠ ""
          ∧ startsWithStr currentFileDirPath rootProjectForVendorPkg = true
        then relativePathForVendorPkg
        else pkg
    else pkg
  | none => pkg

/-- JS `Set.add`: appends in insertion order, skipping present elements. -/
def addToSet (acc : List String) (x : String) : List String :=
  if x ∈ acc then acc else acc ++ [x]

/-- The `pkgs.forEach` accumulation of goImport.ts lines 87-110: empty and
already-imported paths are skipped, every other path is vendor-processed
and added to the set. -/
def buildPkgSetAux (currentWorkspace currentFileDirPath : String)
    (importedPkgs : List String) : List String → List String → List String
  | acc, [] => acc
  | acc, pkg :: rest =>
    buildPkgSetAux currentWorkspace currentFileDirPath importedPkgs
      (if pkg = "" ∨ pkg ∈ importedPkgs then acc
       else addToSet acc (processVendorPkg currentWorkspace currentFileDirPath pkg))
      rest

/-- goImport.ts lines 86-110 as a function of the raw package lines. -/
def buildPkgSet (currentWorkspace currentFileDirPath : String)
    (importedPkgs pkgs : List String) : List String :=
  buildPkgSetAux currentWorkspace currentFileDirPath importedPkgs [] pkgs

/-- goImport.ts lines 114-120: derive the short name as the final path
segment (`pkg.lastIndexOf('/')`). -/
def packageInfoOfPath (pkg : String) : PackageInfo :=
  let index := lastIndexOfChar '/' pkg
  { name := if index == -1 then pkg else strDrop pkg (index + 1).toNat
    path := pkg }

/-- goImport.ts lines 49-124: the catalog computation applied to the parsed
stdout lines, with the vendor-unsupported and vendor-supported branches.
JS `Array.prototype.sort()` (lexicographic string order) is modelled by
insertion sort under `String`'s linear order. -/
def listPackagesFromLines (vendorSupport : Bool)
    (currentWorkspace currentFileDirPath : String)
    (importedPkgs pkgs : List String) : List PackageInfo :=
  let pkgSet :=
    if !vendorSupport then
      let filtered :=
        if importedPkgs.length > 0
          then pkgs.filter (fun element => !(importedPkgs.contains element))
          else pkgs
      List.insertionSort strLe filtered
    else
      List.insertionSort strLe
        (buildPkgSet currentWorkspace currentFileDirPath importedPkgs pkgs)
  pkgSet.map packageInfoOfPath

/-- goImport.ts lines 34-124 composed: parse the tool stdout, then build
the catalog. -/
def listPackagesModel (vendorSupport : Bool)
    (currentWorkspace currentFileDirPath : String)
    (importedPkgs : List String) (stdout : String) : List PackageInfo :=
  listPackagesFromLines vendorSupport currentWorkspace currentFileDirPath
    importedPkgs (parseLines stdout)

theorem map_path_packageInfo (l : List String) :
    ((l.map packageInfoOfPath).map (fun p => p.path)) = l := by
  induction l with
  | nil => rfl
  | cons a l ih => simp [packageInfoOfPath, ih]

theorem addToSet_nodup (acc : List String) (x : String) (h : acc.Nodup) :
    (addToSet acc x).Nodup := by
  unfold addToSet
  by_cases hx : x ∈ acc
  · rw [if_pos hx]; exact h
  · rw [if_neg hx]
    rw [List.nodup_append]
    refine ⟨h, List.nodup_singleton x, ?_⟩
    intro a ha hax
    rw [List.mem_singleton] at hax
    exact hx (hax ▸ ha)

theorem buildPkgSetAux_nodup (cw cfd : String) (imported : List String) :
    ∀ (pkgs acc : List String), acc.Nodup →
      (buildPkgSetAux cw cfd imported acc pkgs).Nodup := by
  intro pkgs
  induction pkgs with
  | nil => intro acc h; exact h
  | cons pkg rest ih =>
    intro acc h
    rw [buildPkgSetAux]
    apply ih
    by_cases hc : pkg = "" ∨ pkg ∈ imported
    · rw [if_pos hc]; exact h
    · rw [if_neg hc]; exact addToSet_nodup _ _ h

/-- C2 counterexample: with vendor support off, duplicate lines in the tool
output survive into the catalog, so two entries share the full path "a". -/
theorem listPackages_dup_cex :
    (listPackagesModel false "" "" [] "a\na\n").map (fun p => p.path) = ["a", "a"]
    ∧ ¬ ((listPackagesModel false "" "" [] "a\na\n").map (fun p => p.path)).Nodup := by
  constructor
  · decide
  · decide

/-- C2 (amended): every catalog list is lexicographically sorted by full
path; the vendor-supported branch contains no duplicate full paths, and the
vendor-unsupported branch contains none provided the tool output lines are
themselves distinct. -/
theorem listPackages_sorted_nodup (vendorSupport : Bool) (cw cfd : String)
    (importedPkgs lines : List String) :
    List.Sorted strLe
        ((listPackagesFromLines vendorSupport cw cfd importedPkgs lines).map (fun p => p.path))
    ∧ (vendorSupport = true →
        ((listPackagesFromLines vendorSupport cw cfd importedPkgs lines).map (fun p => p.path)).Nodup)
    ∧ (vendorSupport = false → lines.Nodup →
        ((listPackagesFromLines vendorSupport cw cfd importedPkgs lines).map (fun p => p.path)).Nodup) := by
  cases vendorSupport with
  | false =>
    simp only [listPackagesFromLines, Bool.not_false, if_true, map_path_packageInfo]
    refine ⟨List.sorted_insertionSort _ _, fun h => Bool.noConfusion h, fun _ hnd => ?_⟩
    apply (List.perm_insertionSort strLe _).symm.nodup
    by_cases hlen : importedPkgs.length > 0
    · rw [if_pos hlen]
      exact hnd.filter _
    · rw [if_neg hlen]
      exact hnd
  | true =>
    simp only [listPackagesFromLines, Bool.not_true, if_false, map_path_packageInfo]
    refine ⟨List.sorted_insertionSort _ _, fun _ => ?_, fun h => Bool.noConfusion h⟩
    apply (List.perm_insertionSort strLe _).symm.nodup
    exact buildPkgSetAux_nodup cw cfd importedPkgs lines [] List.nodup_nil

/-- C2 witness: the theorem evaluated on concrete inputs in both branches. -/
theorem listPackages_sorted_nodup_witness :
    List.Sorted strLe
        ((listPackagesFromLines true "/go/src" "/go/src/a" [] ["b", "a"]).map (fun p => p.path))
    ∧ ((listPackagesFromLines true "/go/src" "/go/src/a" [] ["b", "a"]).map (fun p => p.path)).Nodup
    ∧ ((listPackagesFromLines false "" "" [] ["b", "a"]).map (fun p => p.path)).Nodup :=
  ⟨(listPackages_sorted_nodup true "/go/src" "/go/src/a" [] ["b", "a"]).1,
   (listPackages_sorted_nodup true "/go/src" "/go/src/a" [] ["b", "a"]).2.1 rfl,
   (listPackages_sorted_nodup false "" "" [] ["b", "a"]).2.2 rfl (by decide)⟩

theorem indexOfSub_sound (needle : List Char) :
    ∀ (hay : List Char) (i : Nat), indexOfSub needle hay = some i →
      needle.isPrefixOf (hay.drop i) = true := by
  intro hay
  induction hay with
  | nil =>
    intro i h
    simp only [indexOfSub] at h
    by_cases hn : needle.isEmpty
    · rw [if_pos hn] at h
      injection h with h1
      subst h1
      cases needle with
      | nil => rfl
      | cons x xs => simp [List.isEmpty] at hn
    · rw [if_neg hn] at h
      exact absurd h (by simp)
  | cons c rest ih =>
    intro i h
    simp only [indexOfSub] at h
    by_cases hp : needle.isPrefixOf (c :: rest) = true
    · rw [if_pos hp] at h
      injection h with h1
      subst h1
      simpa using hp
    · rw [if_neg hp] at h
      cases hrec : indexOfSub needle rest with
      | none => rw [hrec] at h; simp at h
      | some j =>
        rw [hrec] at h
        simp only [Option.map_some'] at h
        injection h with h1
        subst h1
        simpa using ih j hrec

theorem indexOfSub_least (needle : List Char) :
    ∀ (hay : List Char) (i : Nat), indexOfSub needle hay = some i →
      ∀ j, j < i → ¬ (needle.isPrefixOf (hay.drop j) = true) := by
  intro hay
  induction hay with
  | nil =>
    intro i h j hj
    simp only [indexOfSub] at h
    by_cases hn : needle.isEmpty
    · rw [if_pos hn] at h
      injection h with h1
      subst h1
      exact absurd hj (Nat.not_lt_zero j)
    · rw [if_neg hn] at h
      exact absurd h (by simp)
  | cons c rest ih =>
    intro i h j hj
    simp only [indexOfSub] at h
    by_cases hp : needle.isPrefixOf (c :: rest) = true
    · rw [if_pos hp] at h
      injection h with h1
      subst h1
      exact absurd hj (Nat.not_lt_zero j)
    · rw [if_neg hp] at h
      cases hrec : indexOfSub needle rest with
      | none => rw [hrec] at h; simp at h
      | some i' =>
        rw [hrec] at h
        simp only [Option.map_some'] at h
        injection h with h1
        subst h1
        cases j with
        | zero => simpa using hp
        | succ j' =>
          have := ih i' hrec j' (by omega)
          simpa using this

/-- C3 counterexample: for the path "/vendor/foo" the first `/vendor/`
occurrence is at index 0; the claim's rewrite conditions hold (the current
file directory lies under the joined root project and the relative part is
nonempty), yet the code keeps the path unmodified because of the strict
`vendorIndex > 0` test. -/
theorem vendor_rewrite_cex :
    indexOfSub magicVendorString.data ("/vendor/foo" : String).data = some 0
    ∧ strDrop "/vendor/foo" (0 + magicVendorString.length) = "foo"
    ∧ ("foo" : String) ≠ ""
    ∧ startsWithStr "/go/src/a" (pathJoin "/go/src" (strTake "/vendor/foo" 0)) = true
    ∧ processVendorPkg "/go/src" "/go/src/a" "/vendor/foo" = "/vendor/foo"
    ∧ ("/vendor/foo" : String) ≠ "foo" := by
  refine ⟨by decide, by decide, by decide, by decide, by decide, by decide⟩

/-- C3 (amended): a catalog path with no `/vendor/` occurrence, or whose
first occurrence is at index 0, is kept unmodified; when the first
occurrence is at a positive index the path is rewritten to the part after
`/vendor/` exactly when that part is nonempty and the current file's
directory starts with the root project joined from the current workspace
and the part before `/vendor/`; only the first occurrence is considered. -/
theorem vendor_rewrite (cw cfd pkg : String) (vi : Nat) :
    (indexOfSub magicVendorString.data pkg.data = none →
      processVendorPkg cw cfd pkg = pkg)
    ∧ (indexOfSub magicVendorString.data pkg.data = some vi →
        magicVendorString.data.isPrefixOf (pkg.data.drop vi) = true
        ∧ (∀ j, j < vi → ¬ (magicVendorString.data.isPrefixOf (pkg.data.drop j) = true))
        ∧ (vi = 0 → processVendorPkg cw cfd pkg = pkg)
        ∧ (0 < vi → processVendorPkg cw cfd pkg =
            (if strDrop pkg (vi + magicVendorString.length) ≠ ""
                ∧ startsWithStr cfd (pathJoin cw (strTake pkg vi)) = true
              then strDrop pkg (vi + magicVendorString.length)
              else pkg))) := by
  constructor
  · intro h
    simp only [processVendorPkg, h]
  · intro h
    refine ⟨indexOfSub_sound _ _ _ h, indexOfSub_least _ _ _ h, ?_, ?_⟩
    · intro h0
      subst h0
      simp only [processVendorPkg, h]
      rw [if_neg (by omega)]
    · intro hpos
      simp only [processVendorPkg, h]
      rw [if_pos hpos]

/-- C3 witness: a vendor path whose root project contains the current file
directory is rewritten to its part after `/vendor/`. -/
theorem vendor_rewrite_witness :
    processVendorPkg "/go/src" "/go/src/github.com/x/y/z"
      "github.com/x/y/vendor/github.com/z/w" = "github.com/z/w" := by
  have h := ((vendor_rewrite "/go/src" "/go/src/github.com/x/y/z"
      "github.com/x/y/vendor/github.com/z/w" 14).2 (by decide)).2.2.2 (by decide)
  rw [h]
  decide

/-! ## Prelude edits (goImport.ts `getTextEditForAddImport`, lines 149-172) -/

/-- The kind tag of a parsed import declaration (`single` or `multi`). -/
inductive ImportKind where
  | single
  | multi
deriving DecidableEq

/-- An entry of `parseFilePrelude(...).imports` (util.ts, outside src/):
its kind and its start/end line numbers; the source field named `end` is
called `endLine` here. -/
structure ImportDecl where
  kind : ImportKind
  start : Int
  endLine : Int
deriving DecidableEq

/-- A vscode `TextEdit.insert` at a line/column position. -/
structure InsertTextEdit where
  line : Int
  column : Int
  newText : String
deriving DecidableEq

/-- goImport.ts lines 149-172: compute the text edit that adds an import.
The prelude (`imports`, `pkg`) is the result of `parseFilePrelude`, whose
source lives outside src/ and is passed in here: `pkg = none` models an
absent package clause record, `some s` a record with `start = s`. -/
def getTextEditForAddImport (arg : Option String) (imports : List ImportDecl)
    (pkg : Option Int) : Option InsertTextEdit :=
  match arg with
  | none => none
  | some a =>
    let multis := imports.filter (fun x => x.kind == ImportKind.multi)
    match multis.getLast? with
    | some lastMulti =>
      some { line := lastMulti.endLine, column := 0, newText := "\t\"" ++ a ++ "\"\n" }
    | none =>
      match imports.getLast? with
      | some lastImport =>
        some { line := lastImport.endLine + 1, column := 0
               newText := "import \"" ++ a ++ "\"\n" }
      | none =>
        match pkg with
        | some s =>
          if s ≥ 0 then
            some { line := s + 1, column := 0
                   newText := "\nimport (\n\t\"" ++ a ++ "\"\n)\n" }
          else none
        | none => none

/-- C4: the priority order of the import insertion point: the closing line
of the last multi import block; else the line after the last (single)
import; else the line after the package clause, as a parenthesized block;
else no edit. -/
theorem addImport_priority (a : String) (imports : List ImportDecl) (pkg : Option Int) :
    (∀ m, (imports.filter (fun x => x.kind == ImportKind.multi)).getLast? = some m →
      getTextEditForAddImport (some a) imports pkg =
        some { line := m.endLine, column := 0, newText := "\t\"" ++ a ++ "\"\n" })
    ∧ ((imports.filter (fun x => x.kind == ImportKind.multi)) = [] →
        ∀ l, imports.getLast? = some l →
          getTextEditForAddImport (some a) imports pkg =
            some { line := l.endLine + 1, column := 0
                   newText := "import \"" ++ a ++ "\"\n" })
    ∧ ((imports.filter (fun x => x.kind == ImportKind.multi)) = [] → imports = [] →
        ∀ s, pkg = some s → 0 ≤ s →
          getTextEditForAddImport (some a) imports pkg =
            some { line := s + 1, column := 0
                   newText := "\nimport (\n\t\"" ++ a ++ "\"\n)\n" })
    ∧ ((imports.filter (fun x => x.kind == ImportKind.multi)) = [] → imports = [] →
        (pkg = none ∨ ∃ s, pkg = some s ∧ s < 0) →
          getTextEditForAddImport (some a) imports pkg = none) := by
  refine ⟨?_, ?_, ?_, ?_⟩
  · intro m hm
    simp only [getTextEditForAddImport, hm]
  · intro hmul l hl
    simp only [getTextEditForAddImport, hmul, List.getLast?_nil, hl]
  · intro hmul hnil s hp hs
    subst hp
    simp only [getTextEditForAddImport, hmul, hnil, List.filter_nil, List.getLast?_nil]
    rw [if_pos hs]
  · intro hmul hnil hpkg
    rcases hpkg with hpkg | ⟨s, hp, hs⟩
    · subst hpkg
      simp only [getTextEditForAddImport, hmul, hnil, List.filter_nil, List.getLast?_nil]
    · subst hp
      simp only [getTextEditForAddImport, hmul, hnil, List.filter_nil, List.getLast?_nil]
      rw [if_neg (not_le.mpr hs)]

/-- C4 witness: the theorem applied to one concrete prelude per branch. -/
theorem addImport_priority_witness :
    getTextEditForAddImport (some "fmt") [{ kind := ImportKind.multi, start := 1, endLine := 3 }] none =
      some { line := 3, column := 0, newText := "\t\"fmt\"\n" }
    ∧ getTextEditForAddImport (some "fmt") [{ kind := ImportKind.single, start := 1, endLine := 1 }] none =
      some { line := 2, column := 0, newText := "import \"fmt\"\n" }
    ∧ getTextEditForAddImport (some "fmt") [] (some 0) =
      some { line := 1, column := 0, newText := "\nimport (\n\t\"fmt\"\n)\n" }
    ∧ getTextEditForAddImport (some "fmt") [] none = none := by
  refine ⟨(addImport_priority "fmt" [{ kind := ImportKind.multi, start := 1, endLine := 3 }] none).1
            { kind := ImportKind.multi, start := 1, endLine := 3 } (by decide),
          (addImport_priority "fmt" [{ kind := ImportKind.single, start := 1, endLine := 1 }] none).2.1
            (by decide) { kind := ImportKind.single, start := 1, endLine := 1 } (by decide),
          (addImport_priority "fmt" [] (some 0)).2.2.1 rfl rfl 0 rfl (by decide),
          (addImport_priority "fmt" [] none).2.2.2 rfl rfl (Or.inl rfl)⟩

/-! ## Completion daemon configuration (goSuggest.ts lines 195-216) -/

/-- The mutable provider state of goSuggest.ts line 45. -/
structure GoCompletionState where
  gocodeConfigurationComplete : Bool
deriving DecidableEq

/-- goSuggest.ts lines 199-212 (`ensureGoCodeConfigured`'s config step):
when the flag is set, resolve immediately issuing nothing; otherwise issue
the two `gocode set` invocations.  The state is returned as the source
leaves it: no assignment to `gocodeConfigurationComplete` exists anywhere
in the source. -/
def ensureGoCodeConfigured (autobuild : String) (s : GoCompletionState) :
    GoCompletionState × List (List String) :=
  if s.gocodeConfigurationComplete then (s, [])
  else (s, [["set", "propose-builtins", "true"], ["set", "autobuild", autobuild]])

/-- C6: the configuration is NOT issued at most once: starting from the
initial state (flag `false`), the first request issues the two
configuration invocations and the second request issues them again,
because the flag is never assigned. -/
theorem gocodeConfiguration_reissued :
    (ensureGoCodeConfigured "true" { gocodeConfigurationComplete := false }).2 =
      [["set", "propose-builtins", "true"], ["set", "autobuild", "true"]]
    ∧ (ensureGoCodeConfigured "true"
        (ensureGoCodeConfigured "true" { gocodeConfigurationComplete := false }).1).2 =
      [["set", "propose-builtins", "true"], ["set", "autobuild", "true"]]
    ∧ ∀ ab : String, ∀ s : GoCompletionState, (ensureGoCodeConfigured ab s).1 = s := by
  refine ⟨rfl, rfl, fun ab s => ?_⟩
  unfold ensureGoCodeConfigured
  by_cases h : s.gocodeConfigurationComplete <;> simp [h]

/-! ## Completion suggestions (goSuggest.ts) -/

/-- The vscode `CompletionItemKind` values this extension produces. -/
inductive CompletionItemKind where
  | keyword
  | function
  | field
  | module
  | property
  | snippet
deriving DecidableEq

/-- goSuggest.ts lines 16-30: map a gocode suggestion class to a vscode
completion item kind; unrecognized classes fall back to `property`. -/
def vscodeKindFromGoCodeClass (kind : String) : CompletionItemKind :=
  if kind = "const" ∨ kind = "package" ∨ kind = "type" then CompletionItemKind.keyword
  else if kind = "func" then CompletionItemKind.function
  else if kind = "var" then CompletionItemKind.field
  else if kind = "import" then CompletionItemKind.module
  else CompletionItemKind.property

/-- A gocode suggestion record (goSuggest.ts lines 32-36); the source
field named `class` is called `cls` here. -/
structure GoCodeSuggestion where
  cls : String
  name : String
  type : String
deriving DecidableEq

/-- A single-line replacement range plus new text (the vscode `TextEdit`
built at goSuggest.ts lines 161-168). -/
structure RangeTextEdit where
  startLine : Nat
  startChar : Nat
  endLine : Nat
  endChar : Nat
  newText : String
deriving DecidableEq

/-- The `command` attached to unimported-package suggestions. -/
structure CommandModel where
  title : String
  command : String
  arguments : List String
deriving DecidableEq

/-- The fields of a vscode `CompletionItem` this extension sets. -/
structure CompletionItem where
  label : String
  kind : CompletionItemKind
  detail : String := ""
  documentation : Option String := none
  insertText : Option String := none
  textEdit : Option RangeTextEdit := none
  additionalTextEdits : List (Option InsertTextEdit) := []
  command : Option CommandModel := none
deriving DecidableEq

/-- goSuggest.ts lines 65-67: the in-string classification — the number of
double-quote characters (the regex `/\"/g` counts every `"`, escaped or
not) on the line before the cursor. -/
def countQuotes (s : String) : Nat :=
  (s.data.filter (fun c => c == '"')).length

/-- goSuggest.ts lines 64-67: cursor inside a string when the count is odd. -/
def inStringOf (lineText : String) (character : Nat) : Bool :=
  countQuotes (strTake lineText character) % 2 == 1

/-- Walk for `unescapedQuoteCount`, tracking the previous character. -/
def unescapedQuoteCountAux : Option Char → List Char → Nat
  | _, [] => 0
  | prev, c :: rest =>
    (if c = '"' ∧ prev ≠ some '\\' then 1 else 0) + unescapedQuoteCountAux (some c) rest

/-- Modelled from the spec: the count of unescaped double quotes (quotes
not immediately preceded by a backslash) that claim C5 describes; no such
count appears in the source. -/
def unescapedQuoteCount (s : String) : Nat :=
  unescapedQuoteCountAux none s.data

/-- node `path.basename` for POSIX paths without trailing separators. -/
def basenameStr (s : String) : String :=
  let i := lastIndexOfChar '/' s
  if i == -1 then s else strDrop s (i + 1).toNat

/-- node `path.dirname` for POSIX paths without trailing separators. -/
def dirnameStr (s : String) : String :=
  let i := lastIndexOfChar '/' s
  if i == -1 then "." else if i == 0 then "/" else strTake s i.toNat

/-- Continuation of the regex `package\s+\w+` after its first whitespace
character: further whitespace, then at least one word character. -/
def spacesThenWord : List Char → Bool
  | [] => false
  | c :: rest =>
    if isWordChar c then true else if isSpaceChar c then spacesThenWord rest else false

/-- Whether the regex `package\s+(\w+)` matches at the start of the list. -/
def matchesPackageHere : List Char → Bool
  | 'p' :: 'a' :: 'c' :: 'k' :: 'a' :: 'g' :: 'e' :: c :: rest =>
    isSpaceChar c && spacesThenWord rest
  | _ => false

/-- goSuggest.ts line 143: whether `inputText.match(/package\s+(\w+)/)`
finds a match anywhere in the buffer. -/
def containsPackageDecl : List Char → Bool
  | [] => false
  | c :: rest => matchesPackageHere (c :: rest) || containsPackageDecl rest

/-- goSuggest.ts lines 144-147: `'main'` for a `main.go` file, otherwise
the basename of the file's directory. -/
def defaultPackageName (filename : String) : String :=
  if basenameStr filename == "main.go" then "main" else basenameStr (dirnameStr filename)

/-- goSuggest.ts lines 148-151: the synthetic `package <name>` snippet. -/
def packageClauseItem (filename : String) : CompletionItem :=
  { label := "package " ++ defaultPackageName filename
    kind := CompletionItemKind.snippet
    insertText := some ("package " ++ defaultPackageName filename ++ "\r\n\r\n") }

/-- goSuggest.ts lines 155-184: process one gocode suggestion.  Inside a
string non-import suggestions are dropped; surviving import suggestions
get a replacement range from just after the last quote before the cursor
to the cursor.  `funcSnippet` stands for the insert text assembled in the
`useCodeSnippetsOnFunctionSuggest` branch, whose `parameters` helper
(util.ts) lies outside src/. -/
def suggestionItem (funcSnippet : String → String → String)
    (inString : Bool) (line character : Nat) (lineText : String)
    (useSnippets : Bool) (suggest : GoCodeSuggestion) : Option CompletionItem :=
  if inString && !(suggest.cls == "import") then none
  else
    some
      { label := suggest.name
        kind := vscodeKindFromGoCodeClass suggest.cls
        detail := suggest.type
        textEdit :=
          if inString && suggest.cls == "import" then
            some
              { startLine := line
                startChar := (lastIndexOfChar '"' (strTake lineText character) + 1).toNat
                endLine := line
                endChar := character
                newText := suggest.name }
          else none
        insertText :=
          if useSnippets && suggest.cls == "func" then
            some (funcSnippet suggest.name suggest.type)
          else none }

/-- goSuggest.ts lines 139-186: build the suggestion list from the decoded
gocode payload: the synthetic package-clause snippet is pushed first when
the buffer lacks a `package <identifier>` clause (regardless of the
in-string classification), then each tool suggestion is processed. -/
def buildGoCodeSuggestions (funcSnippet : String → String → String)
    (filename inputText : String) (inString : Bool) (line character : Nat)
    (lineText : String) (useSnippets : Bool)
    (results : Option (List GoCodeSuggestion)) : List CompletionItem :=
  (if !(containsPackageDecl inputText.data) then [packageClauseItem filename] else [])
    ++ (match results with
        | none => []
        | some rs =>
          rs.filterMap (suggestionItem funcSnippet inString line character lineText useSnippets))

/-- C5 counterexample: on the line `x "a\"` (six characters, second quote
escaped) at cursor column 6 the unescaped-quote count is odd, yet the code
counts every quote (two, even) and classifies the cursor as not inside a
string — falsifying the claimed classification. -/
theorem inString_unescaped_cex :
    unescapedQuoteCount (strTake (String.mk ['x', ' ', '"', 'a', '\\', '"']) 6) % 2 = 1
    ∧ inStringOf (String.mk ['x', ' ', '"', 'a', '\\', '"']) 6 = false := by
  refine ⟨by decide, by decide⟩

/-- C5 (amended): the cursor is classified inside a string exactly when
the count of all double quotes (escaped included) before it on the line is
odd; inside a string every tool suggestion whose class is not `import` is
dropped, and every surviving suggestion has class `import` and carries the
replacement range from just after the last `"` before the cursor to the
cursor (the synthetic package-clause snippet, added separately, is
exempt). -/
theorem inString_filter_spec (lineText : String) (character line : Nat)
    (funcSnippet : String → String → String) (useSnippets : Bool)
    (suggest : GoCodeSuggestion) :
    (inStringOf lineText character = true ↔
      countQuotes (strTake lineText character) % 2 = 1)
    ∧ (¬ suggest.cls = "import" →
        suggestionItem funcSnippet true line character lineText useSnippets suggest = none)
    ∧ (∀ item,
        suggestionItem funcSnippet true line character lineText useSnippets suggest = some item →
          suggest.cls = "import"
          ∧ item.textEdit = some
              { startLine := line
                startChar := (lastIndexOfChar '"' (strTake lineText character) + 1).toNat
                endLine := line
                endChar := character
                newText := suggest.name }) := by
  refine ⟨?_, ?_, ?_⟩
  · simp [inStringOf]
  · intro h
    simp [suggestionItem, h]
  · intro item h
    obtain ⟨cls, nm, ty⟩ := suggest
    by_cases hcls : cls = "import"
    · subst hcls
      refine ⟨rfl, ?_⟩
      simp only [suggestionItem] at h
      simp at h
      rw [← h]
    · simp [suggestionItem, hcls] at h

/-- C5 witness: the amended theorem applied at a concrete line, suggestion
and item. -/
theorem inString_filter_witness :
    (inStringOf "x := \"" 6 = true ↔ countQuotes (strTake "x := \"" 6) % 2 = 1)
    ∧ suggestionItem (fun _ _ => "") true 0 6 "x := \"" false
        { cls := "func", name := "Foo", type := "func()" } = none := by
  refine ⟨(inString_filter_spec "x := \"" 6 0 (fun _ _ => "") false
            { cls := "func", name := "Foo", type := "func()" }).1,
          (inString_filter_spec "x := \"" 6 0 (fun _ _ => "") false
            { cls := "func", name := "Foo", type := "func()" }).2.1 (by decide)⟩

/-- C10: whenever the buffer has no `package <identifier>` clause, the
suggestion list starts with the synthetic snippet item labelled
`package <name>`, with `<name>` equal to `main` for a `main.go` file and
to the basename of the file's directory otherwise, whatever the in-string
classification is. -/
theorem packageSnippet_added (funcSnippet : String → String → String)
    (filename inputText : String) (inString : Bool) (line character : Nat)
    (lineText : String) (useSnippets : Bool) (results : Option (List GoCodeSuggestion))
    (h : containsPackageDecl inputText.data = false) :
    (buildGoCodeSuggestions funcSnippet filename inputText inString line character lineText
        useSnippets results).head? = some (packageClauseItem filename)
    ∧ (packageClauseItem filename).label = "package " ++ defaultPackageName filename
    ∧ (packageClauseItem filename).kind = CompletionItemKind.snippet
    ∧ defaultPackageName filename =
        (if basenameStr filename == "main.go" then "main"
         else basenameStr (dirnameStr filename)) := by
  refine ⟨?_, rfl, rfl, rfl⟩
  unfold buildGoCodeSuggestions
  rw [h]
  simp

/-- C10 witness: a buffer with no package clause in a `main.go` file. -/
theorem packageSnippet_added_witness :
    (buildGoCodeSuggestions (fun _ _ => "") "/p/dir/main.go" "func f()" true 0 0 "" false
        none).head? = some (packageClauseItem "/p/dir/main.go")
    ∧ (packageClauseItem "/p/dir/main.go").label = "package main" := by
  have h := packageSnippet_added (fun _ _ => "") "/p/dir/main.go" "func f()" true 0 0 "" false
    none (by decide)
  exact ⟨h.1, by decide⟩

/-! ## Tool-error routing (goSuggest.ts `runGoCode`, goImport.ts
`listPackages`, goOutline `documentSymbols`) -/

/-- Outcome classification of a `cp.execFile` / `execContainer` callback
error argument: absent, `ENOENT` (binary not found), or another error. -/
inductive ExecError where
  | enoent
  | otherErr (msg : String)
deriving DecidableEq

/-- Reasons a completion run's promise is rejected. -/
inductive RunGoCodeError where
  | execFailed (e : ExecError)
  | parseFailed
deriving DecidableEq

/-- goSuggest.ts lines 133-192: the `runGoCode` callback.  `decode` models
`JSON.parse` of the `[prefixLen, suggestions]` payload (`none` = the parse
throws, caught and rejected).  The returned flag records whether
`promptForMissingTool` ran; the `Except` is the promise, `Except.error`
being a rejection. -/
def runGoCodeHandler (decode : String → Option (Nat × Option (List GoCodeSuggestion)))
    (funcSnippet : String → String → String)
    (filename inputText : String) (inString : Bool) (line character : Nat)
    (lineText : String) (useSnippets : Bool)
    (err : Option ExecError) (stdout : String) :
    Bool × Except RunGoCodeError (List CompletionItem) :=
  match err with
  | some ExecError.enoent =>
    (true, Except.error (RunGoCodeError.execFailed ExecError.enoent))
  | some e => (false, Except.error (RunGoCodeError.execFailed e))
  | none =>
    match decode stdout with
    | none => (false, Except.error RunGoCodeError.parseFailed)
    | some r =>
      (false, Except.ok (buildGoCodeSuggestions funcSnippet filename inputText inString
        line character lineText useSnippets r.2))

/-- goImport.ts lines 34-47: the `gopkgs` callback: on `ENOENT` the
missing-tool prompt is shown and the promise is rejected (`reject()`);
any other outcome — error or not — parses the stdout lines. -/
def goPkgsHandler (err : Option ExecError) (stdout : String) :
    Bool × Except Unit (List String) :=
  match err with
  | some ExecError.enoent => (true, Except.error ())
  | _ => (false, Except.ok (parseLines stdout))

/-- C8 counterexample: on the binary-not-found condition both read paths
prompt but REJECT their promise instead of resolving an empty or absent
result. -/
theorem notFound_reject_cex :
    goPkgsHandler (some ExecError.enoent) "" = (true, Except.error ())
    ∧ (runGoCodeHandler (fun _ => none) (fun _ _ => "") "f.go" "" false 0 0 "" false
        (some ExecError.enoent) "").2
      = Except.error (RunGoCodeError.execFailed ExecError.enoent) :=
  ⟨rfl, rfl⟩

/-- C8 (amended): the binary-not-found condition routes to the
missing-tool prompt on both read paths, but the request is then rejected —
the failure propagates to the caller instead of resolving empty/absent. -/
theorem notFound_prompts_and_rejects
    (decode : String → Option (Nat × Option (List GoCodeSuggestion)))
    (funcSnippet : String → String → String)
    (filename inputText : String) (inString : Bool) (line character : Nat)
    (lineText : String) (useSnippets : Bool) (stdout : String) :
    goPkgsHandler (some ExecError.enoent) stdout = (true, Except.error ())
    ∧ runGoCodeHandler decode funcSnippet filename inputText inString line character
        lineText useSnippets (some ExecError.enoent) stdout
      = (true, Except.error (RunGoCodeError.execFailed ExecError.enoent)) :=
  ⟨rfl, rfl⟩

/-! ## Outline tool (goOutline `documentSymbols`) -/

/-- A node of the go-outline declaration tree, restricted to the fields
the code reads; the source field named `end` is called `stop` here. -/
inductive GoOutlineDeclaration where
  | node (label : String) (type : String) (start stop : Nat)
      (children : List GoOutlineDeclaration)

/-- goOutline `documentSymbols` callback: on any tool error resolve null
(prompting first when the error is `ENOENT`); otherwise decode the stdout
(`JSON.parse`, modelled by `decode`); a decode failure is caught and the
promise is rejected. -/
def documentSymbolsHandler (decode : String → Option (List GoOutlineDeclaration))
    (err : Option ExecError) (stdout : String) :
    Bool × Except String (Option (List GoOutlineDeclaration)) :=
  match err with
  | some ExecError.enoent => (true, Except.ok none)
  | some _ => (false, Except.ok none)
  | none =>
    match decode stdout with
    | some decls => (false, Except.ok (some decls))
    | none => (false, Except.error "SyntaxError")

/-- C9 counterexample: undecodable stdout makes `documentSymbols` reject
(raise) rather than resolve an absent result. -/
theorem documentSymbols_reject_cex :
    documentSymbolsHandler (fun _ => none) none "not json"
      = (false, Except.error "SyntaxError")
    ∧ (Except.error "SyntaxError"
        : Except String (Option (List GoOutlineDeclaration))) ≠ Except.ok none := by
  refine ⟨rfl, fun h => Except.noConfusion h⟩

/-- C9 (amended): a tool error resolves to the absent result (prompting
when the binary is missing); decodable stdout resolves to the decoded
declarations; undecodable stdout rejects the promise with the decode
error. -/
theorem documentSymbols_spec (decode : String → Option (List GoOutlineDeclaration))
    (err : Option ExecError) (stdout : String) :
    (err = some ExecError.enoent →
      documentSymbolsHandler decode err stdout = (true, Except.ok none))
    ∧ (∀ m, err = some (ExecError.otherErr m) →
        documentSymbolsHandler decode err stdout = (false, Except.ok none))
    ∧ (∀ decls, err = none → decode stdout = some decls →
        documentSymbolsHandler decode err stdout = (false, Except.ok (some decls)))
    ∧ (err = none → decode stdout = none →
        documentSymbolsHandler decode err stdout = (false, Except.error "SyntaxError")) := by
  refine ⟨?_, ?_, ?_, ?_⟩
  · intro h
    subst h
    rfl
  · intro m h
    subst h
    rfl
  · intro decls h hd
    subst h
    simp only [documentSymbolsHandler, hd]
  · intro h hd
    subst h
    simp only [documentSymbolsHandler, hd]

/-- C9 witness: the amended theorem at concrete outcomes. -/
theorem documentSymbols_spec_witness :
    documentSymbolsHandler (fun _ => some []) (some ExecError.enoent) "" = (true, Except.ok none)
    ∧ documentSymbolsHandler (fun _ => some []) none "[]" = (false, Except.ok (some [])) :=
  ⟨(documentSymbols_spec (fun _ => some []) (some ExecError.enoent) "").1 rfl,
   (documentSymbols_spec (fun _ => some []) none "[]").2.2.1 [] rfl rfl⟩

/-! ## Completion orchestration (goSuggest.ts
`provideCompletionItemsInternal`, lines 52-121) -/

/-- A completion-tool invocation recorded by the orchestrator: the buffer
piped on stdin and the offset passed as `c<offset>`. -/
structure ToolCall where
  buf : String
  off : Nat
deriving DecidableEq

/-- goSuggest.ts line 60: the leading line-comment guard `/^\s*\/\//`. -/
def isLineCommentStart (s : String) : Bool :=
  (s.data.dropWhile isSpaceChar).take 2 == ['/', '/']

/-- goSuggest.ts line 77: the numeric-token guard `/^\d+$/`. -/
def isAllDigits (s : String) : Bool :=
  !s.data.isEmpty && s.data.all (fun c => c.isDigit)

/-- goSuggest.ts lines 240-246: the regex `/(\w+)\.$/` capture — the
maximal word-character run before a final dot. -/
def wordBeforeDot (line : String) : Option String :=
  match line.data.reverse with
  | '.' :: rest =>
    let w := rest.takeWhile isWordChar
    if w.isEmpty then none else some (String.mk w.reverse)
  | _ => none

/-- goSuggest.ts lines 239-255 (`getPackagePathFromLine`): the path of the
unique catalog package whose short name is the word before the final dot. -/
def getPackagePathFromLine (line : String) (pkgsList : List PackageInfo) : Option String :=
  match wordBeforeDot line with
  | none => none
  | some pkgName =>
    match pkgsList.filter (fun pkgInfo => pkgInfo.name == pkgName) with
    | [p] => some p.path
    | _ => none

/-- goSuggest.ts lines 219-236 (`getMatchingPackages`). -/
def getMatchingPackages (pkgsList : List PackageInfo) (word : String) : List CompletionItem :=
  if word == "" then []
  else
    (pkgsList.filter (fun pkgInfo => startsWithStr pkgInfo.name word)).map
      (fun pkgInfo =>
        { label := pkgInfo.name
          kind := CompletionItemKind.keyword
          detail := pkgInfo.path
          documentation := some "Imports the package"
          insertText := some pkgInfo.name
          command := some { title := "Import Package", command := "go.import.add"
                            arguments := [pkgInfo.path] } })

/-- Character count of the buffer before `Position(line, 0)` (vscode
`document.offsetAt`, clamped at the end of the buffer). -/
def lineStartOffsetAux : List Char → Nat → Nat
  | _, 0 => 0
  | [], _ + 1 => 0
  | c :: rest, n + 1 =>
    if c = '\n' then 1 + lineStartOffsetAux rest n else 1 + lineStartOffsetAux rest (n + 1)

/-- Offset of the start of the given line in the buffer. -/
def lineStartOffset (s : String) (line : Nat) : Nat :=
  lineStartOffsetAux s.data line

/-- goSuggest.ts lines 52-121 (`provideCompletionItemsInternal`), with the
completion tool abstracted as `tool` (buffer and offset to the suggestion
list `runGoCode` resolves; its remaining arguments are fixed for the
request).  `pkgStart` is `parseFilePrelude(...).pkg.start` (the source
dereferences it unconditionally in the retry branch) and `imports` the
parsed import declarations; both are re-derived by
`getTextEditForAddImport`.  The result pairs the resolved suggestion list
with the trace of completion-tool invocations. -/
def provideCompletionItemsInternal (tool : String → Nat → List CompletionItem)
    (autocompleteUnimportedPackages : Bool) (pkgsList : List PackageInfo)
    (imports : List ImportDecl) (pkgStart : Nat)
    (lineText : String) (character : Nat) (currentWord : String)
    (inputText : String) (offset : Nat) : List CompletionItem × List ToolCall :=
  if isLineCommentStart lineText then ([], [])
  else if isAllDigits currentWord then ([], [])
  else
    let lineTillCurrentPosition := strTake lineText character
    let s1 := tool inputText offset
    if !autocompleteUnimportedPackages then (s1, [{ buf := inputText, off := offset }])
    else
      let suggestions := s1 ++ getMatchingPackages pkgsList currentWord
      if suggestions.length == 0 && endsWithStr lineTillCurrentPosition "." then
        match getPackagePathFromLine lineTillCurrentPosition pkgsList with
        | some pkgPath =>
          let posToAddImport := lineStartOffset inputText (pkgStart + 1)
          let textToAdd := "import \"" ++ pkgPath ++ "\"\n"
          let inputText2 :=
            strTake inputText posToAddImport ++ textToAdd ++ strDrop inputText posToAddImport
          let offset2 := offset + textToAdd.length
          let newsuggestions :=
            (tool inputText2 offset2).map
              (fun item => { item with additionalTextEdits :=
                [getTextEditForAddImport (some pkgPath) imports (some (pkgStart : Int))] })
          (newsuggestions,
            [{ buf := inputText, off := offset }, { buf := inputText2, off := offset2 }])
        | none => (suggestions, [{ buf := inputText, off := offset }])
      else (suggestions, [{ buf := inputText, off := offset }])

/-- C1: when the first completion pass plus the catalog matches yield zero
suggestions, the line up to the cursor ends with a dot and the word before
the dot is the short name of exactly one catalog package, the completion
tool is re-invoked exactly once, on the buffer with `import "<path>"\n`
inserted at the start of the line following the package clause line, at
the original offset shifted by the inserted text's length; no further
invocation occurs. -/
theorem speculative_retry (tool : String → Nat → List CompletionItem)
    (pkgsList : List PackageInfo) (imports : List ImportDecl) (pkgStart : Nat)
    (lineText : String) (character : Nat) (currentWord : String)
    (inputText : String) (offset : Nat) (p : PackageInfo) (w : String)
    (hcomment : isLineCommentStart lineText = false)
    (hnum : isAllDigits currentWord = false)
    (hzero : tool inputText offset ++ getMatchingPackages pkgsList currentWord = [])
    (hdot : endsWithStr (strTake lineText character) "." = true)
    (hword : wordBeforeDot (strTake lineText character) = some w)
    (huniq : pkgsList.filter (fun pkgInfo => pkgInfo.name == w) = [p]) :
    (provideCompletionItemsInternal tool true pkgsList imports pkgStart lineText character
        currentWord inputText offset).2 =
      [{ buf := inputText, off := offset },
       { buf := strTake inputText (lineStartOffset inputText (pkgStart + 1))
                  ++ ("import \"" ++ p.path ++ "\"\n")
                  ++ strDrop inputText (lineStartOffset inputText (pkgStart + 1))
         off := offset + ("import \"" ++ p.path ++ "\"\n").length }] := by
  have hpath : getPackagePathFromLine (strTake lineText character) pkgsList = some p.path := by
    simp only [getPackagePathFromLine, hword, huniq]
  simp only [provideCompletionItemsInternal, hcomment, hnum, hzero, hdot, hpath,
    Bool.false_eq_true, if_false, Bool.not_true, List.length_nil]
  rw [if_pos (by decide)]

/-- C1 witness: a concrete request — line `foo.` with cursor at column 4,
an empty first pass, catalog `[{foo, pkg/foo}]` — produces exactly two
tool invocations, the second on the buffer with the import inserted after
the package clause line and at the shifted offset. -/
theorem speculative_retry_witness :
    (provideCompletionItemsInternal (fun _ _ => []) true
        [{ name := "foo", path := "pkg/foo" }] [] 0 "foo." 4 ""
        "package main\nfoo." 17).2 =
      [{ buf := "package main\nfoo.", off := 17 },
       { buf := "package main\nimport \"pkg/foo\"\nfoo.", off := 34 }] := by
  have h := speculative_retry (fun _ _ => []) [{ name := "foo", path := "pkg/foo" }] [] 0
    "foo." 4 "" "package main\nfoo." 17 { name := "foo", path := "pkg/foo" } "foo"
    (by decide) (by decide) (by decide) (by decide) (by decide) (by decide)
  rw [h]
  decide
